import Mathlib

/-!
# boost/reflect/vtable.hpp

A verification development for the interface-declaration machinery of
`include/boost/reflect/vtable.hpp`.

The header consists of preprocessor definitions that generate, for every
`BOOST_REFLECT_ANY_DERIVED(NAME, INHERITS, MEMBERS)`, a partial specialization
of `vtable<NAME, InterfaceDelegate>` and an explicit specialization of
`vtable_reflector<NAME>`.  The embedding has two layers:

* the generators: each preprocessor definition of the header is a Lean
  function of the same name that returns the piece of C++ it generates
  (a base specifier, a member struct, a statement of `visit`);
* the meaning of the generated `visit`: the visitor invocations performed by
  `vtable_reflector<T>::visit`, given the declarations that are in scope.
-/

namespace BoostReflect

/-! ## Tokens and the Boost.Preprocessor primitives used by the header -/

/-- An identifier token, as written in a declaration. -/
structure Ident where
  spelling : String
deriving DecidableEq, Repr

/-- A Boost.Preprocessor sequence `(a)(b)(c)` of identifiers. -/
abbrev Seq := List Ident

/-- The empty sequence, `BOOST_PP_SEQ_NIL` (Boost.Preprocessor). -/
def BOOST_PP_SEQ_NIL : Seq := []

/-- The string literal `BOOST_PP_STRINGIZE(x)` (Boost.Preprocessor) for an
identifier that is not itself a preprocessor name: the characters of `x`. -/
def BOOST_PP_STRINGIZE (x : Ident) : String := x.spelling

/-- The token `BOOST_PP_CAT(a, b)` (Boost.Preprocessor): `a` and `b` pasted. -/
def BOOST_PP_CAT (a b : Ident) : Ident := ⟨a.spelling ++ b.spelling⟩

/-- The expansion of `BOOST_PP_SEQ_FOR_EACH(m, data, seq)` (Boost.Preprocessor):
`m(r, data, e)` for every element `e` of `seq`, left to right; nothing for
`BOOST_PP_SEQ_NIL`. -/
def BOOST_PP_SEQ_FOR_EACH {δ α : Type} (m : δ → Ident → α) (data : δ) (seq : Seq) : List α :=
  seq.map (m data)

/-! ## The generated C++ -/

/-- The class types that occur in the generated code. -/
inductive CppType where
  /-- The type `boost::reflect::vtable<InterfaceType, InterfaceDelegate>`. -/
  | vtable (InterfaceType InterfaceDelegate : Ident)
  /-- The type `vtable_base<t>` (vtable.hpp:51-52). -/
  | vtable_base (t : Ident)
  /-- The type
  `InterfaceDelegate::template calculate_type<BOOST_TYPEOF(&interface_type::elem)>::type`. -/
  | calculate_type (InterfaceDelegate interface_type elem : Ident)
deriving DecidableEq, Repr

/-- Access of a base specifier. -/
inductive Access where
  | pub
  | priv
deriving DecidableEq, Repr

/-- One entry of a base-specifier list. -/
structure BaseSpecifier where
  access : Access
  base : CppType
deriving DecidableEq, Repr

/-- A value held by an object that can be the target of `get_member_ptr`. -/
inductive Value where
  /-- No pointer to member stored. -/
  | unset
  /-- The pointer to member `&Type::elem`. -/
  | member_pointer (type elem : Ident)
deriving DecidableEq, Repr

/-- Objects of the caller and of the running function, by address. -/
abbrev Memory := List Value

/-- The template argument `AssignType` of `get_member_ptr`. -/
structure AssignType where
  /-- Whether `AssignType` is an lvalue reference type `T&` (otherwise an
  object type `T`). -/
  is_reference : Bool
  /-- The assignment `x = p` of the referred-to type, for `x` the object at the
  given address. -/
  assign : Memory → Nat → Value → Memory

/-- The built-in assignment: the object at `a` now holds `p`. -/
def builtin_assign (mem : Memory) (a : Nat) (p : Value) : Memory := mem.set a p

/-- The struct `__reflect__elem` and the field `elem` generated by
`BOOST_REFLECT_VTABLE_DEFINE_MEMBER` (vtable.hpp:60-69). -/
structure MemberStruct where
  /-- The struct name, `BOOST_PP_CAT( __reflect__, elem)`. -/
  struct_name : Ident
  /-- The public base and `base_type` typedef. -/
  base_type : CppType
  /-- The string returned by `static const char* name()`. -/
  name : String
  /-- The member named in `v = &Type::elem` of `get_member_ptr`. -/
  member_ptr : Ident
  /-- The declarator after the closing brace: the field name. -/
  field : Ident
deriving DecidableEq, Repr

/-- The function `get_member_ptr<Type, AssignType>( AssignType v ) { v = &Type::elem; }`
(vtable.hpp:67-68), called with the object at address `arg` as argument.
The parameter `v` is declared with type `AssignType`: for a reference type it
is bound to the argument; for an object type it is a new object, initialised
with a copy of the argument and gone when the function returns. -/
def MemberStruct.get_member_ptr (m : MemberStruct) (type : Ident) (A : AssignType)
    (mem : Memory) (arg : Nat) : Memory :=
  if A.is_reference then
    A.assign mem arg (.member_pointer type m.member_ptr)
  else
    let v := mem.length
    let entered := mem ++ [mem.getD arg .unset]
    let assigned := A.assign entered v (.member_pointer type m.member_ptr)
    assigned.take mem.length

/-- A statement in the body of a generated `visit`. -/
inductive Stmt where
  /-- The statement
  `vtable_reflector<name>::visit( (const boost::reflect::vtable<name,InterfaceDelegate>*)vtbl, visitor );` -/
  | visit_base (name InterfaceDelegate visitor : Ident)
  /-- The statement
  `visitor.template operator()<BOOST_TYPEOF(&vtable_type::elem),&vtable_type::elem>( arg );`
  with the `vtable_type` typedef resolved. -/
  | visit_member (visitor : Ident) (vtable_type : CppType) (elem : Ident) (arg : String)
deriving DecidableEq, Repr

/-- Line 58 of vtable.hpp, `boost::reflect::vtable<elem,data>,`: a base
specifier without access keyword in a `struct`, hence public. -/
def BOOST_REFLECT_VTABLE_PUBLIC_BASE (data elem : Ident) : BaseSpecifier :=
  ⟨.pub, .vtable elem data⟩

/-- Lines 60-69 of vtable.hpp.  `InterfaceDelegate` and `interface_type` are the names
the definition picks up from the class it is expanded in. -/
def BOOST_REFLECT_VTABLE_DEFINE_MEMBER (InterfaceDelegate interface_type : Ident)
    (data elem : Ident) : MemberStruct :=
  { struct_name := BOOST_PP_CAT ⟨"__reflect__"⟩ elem
    base_type := .calculate_type InterfaceDelegate interface_type elem
    name := BOOST_PP_STRINGIZE data
    member_ptr := elem
    field := elem }

/-- Lines 72-73 of vtable.hpp.  `InterfaceDelegate` is the template parameter of the
enclosing `visit`. -/
def BOOST_REFLECT_VTABLE_VISIT_BASE (InterfaceDelegate : Ident) (visitor name : Ident) : Stmt :=
  .visit_base name InterfaceDelegate visitor

/-- Lines 75-76 of vtable.hpp.  `vtable_type` is the typedef of the enclosing `visit`. -/
def BOOST_REFLECT_VTABLE_VISIT_MEMBER (vtable_type : CppType) (visitor elem : Ident) : Stmt :=
  .visit_member visitor vtable_type elem (BOOST_PP_STRINGIZE elem)

/-- A specialization `vtable<NAME, InterfaceDelegate>` (vtable.hpp:94-98). -/
structure VtableSpecialization where
  /-- The first template argument of the specialization. -/
  InterfaceType : Ident
  /-- The base-specifier list, in order. -/
  bases : List BaseSpecifier
  /-- The typedef `interface_type`. -/
  interface_type : Ident
  /-- The member structs with their fields, in order. -/
  members : List MemberStruct
deriving DecidableEq, Repr

/-- A specialization `vtable_reflector<NAME>` (vtable.hpp:99-108). -/
structure ReflectorSpecialization where
  /-- The template argument of the specialization. -/
  InterfaceType : Ident
  /-- The typedef `interface_type`. -/
  interface_type : Ident
  /-- The typedef `vtable_type` inside `visit`, by `InterfaceDelegate`. -/
  vtable_type : Ident → CppType
  /-- The statements of `visit<Visitor, InterfaceDelegate>`, by `InterfaceDelegate`. -/
  visit : Ident → List Stmt

/-- What one `BOOST_REFLECT_ANY_DERIVED` expands to. -/
structure Expansion where
  /-- The argument of `BOOST_REFLECT_TYPEINFO` (defined in
  boost/reflect/reflect.hpp; it takes no part in the traversal). -/
  typeinfo : Ident
  /-- The specialization `template<typename InterfaceDelegate> struct vtable<NAME,InterfaceDelegate>`. -/
  vtable : Ident → VtableSpecialization
  /-- The specialization `template<> struct vtable_reflector<NAME>`. -/
  vtable_reflector : ReflectorSpecialization

/-- Lines 91-110 of vtable.hpp: the specialization of `vtable` with its base
list and member structs, and the specialization of `vtable_reflector` with
the body of `visit`. -/
def BOOST_REFLECT_ANY_DERIVED (NAME : Ident) (INHERITS MEMBERS : Seq) : Expansion :=
  { typeinfo := NAME
    vtable := fun InterfaceDelegate =>
      { InterfaceType := NAME
        bases := BOOST_PP_SEQ_FOR_EACH BOOST_REFLECT_VTABLE_PUBLIC_BASE InterfaceDelegate INHERITS
                   ++ [⟨.priv, .vtable_base NAME⟩]
        interface_type := NAME
        members := BOOST_PP_SEQ_FOR_EACH
          (BOOST_REFLECT_VTABLE_DEFINE_MEMBER InterfaceDelegate NAME) NAME MEMBERS }
    vtable_reflector :=
      { InterfaceType := NAME
        interface_type := NAME
        vtable_type := fun InterfaceDelegate => .vtable NAME InterfaceDelegate
        visit := fun InterfaceDelegate =>
          BOOST_PP_SEQ_FOR_EACH (BOOST_REFLECT_VTABLE_VISIT_BASE InterfaceDelegate)
              ⟨"visitor"⟩ INHERITS
            ++ BOOST_PP_SEQ_FOR_EACH
              (BOOST_REFLECT_VTABLE_VISIT_MEMBER (.vtable NAME InterfaceDelegate))
              ⟨"visitor"⟩ MEMBERS } }

/-- Lines 112-113 of vtable.hpp: `BOOST_REFLECT_ANY_DERIVED` with
`BOOST_PP_SEQ_NIL` as base list. -/
def BOOST_REFLECT_ANY (NAME : Ident) (MEMBERS : Seq) : Expansion :=
  BOOST_REFLECT_ANY_DERIVED NAME BOOST_PP_SEQ_NIL MEMBERS

/-! ## The meaning of `visit` -/

/-- One invocation
`visitor.template operator()<BOOST_TYPEOF(&vtable_type::elem),&vtable_type::elem>( name )`. -/
structure VisitorCall where
  /-- The class of the pointer to member `&vtable_type::elem`. -/
  vtable_type : CppType
  /-- The member of the pointer to member `&vtable_type::elem`. -/
  elem : Ident
  /-- The run-time argument. -/
  name : String
deriving DecidableEq, Repr

/-- A pointer `const vtable<..>*`: the descriptor instance pointed into and the
class it is viewed as. -/
structure Pointer where
  object : Nat
  pointee : CppType
deriving DecidableEq, Repr

/-- The cast `(const boost::reflect::vtable<name,InterfaceDelegate>*)vtbl`: the
same instance, viewed as the descriptor of `name`. -/
def Pointer.cast (vtbl : Pointer) (name InterfaceDelegate : Ident) : Pointer :=
  ⟨vtbl.object, .vtable name InterfaceDelegate⟩

/-- The visitor invocations of `vtable_reflector<T>::visit<Visitor, InterfaceDelegate>(vtbl, visitor)`,
in order, where the list holds the expansions in scope, the most recent first.

With no specialization for `T` in scope the primary template is used, whose
`visit` has an empty body (vtable.hpp:44-48).  The body of a specialization
names `vtable_reflector<name>` for its bases: it refers to what was in scope
where the specialization was written, that is to the expansions before it. -/
def vtable_reflector_visit : List Expansion → Ident → Ident → Pointer → List VisitorCall
  | [], _, _, _ => []
  | e :: earlier, T, InterfaceDelegate, vtbl =>
    if e.vtable_reflector.InterfaceType = T then
      (e.vtable_reflector.visit InterfaceDelegate).flatMap fun s =>
        match s with
        | .visit_base name D _ =>
          vtable_reflector_visit earlier name D (vtbl.cast name D)
        | .visit_member _ vtable_type elem arg => [⟨vtable_type, elem, arg⟩]
    else
      vtable_reflector_visit earlier T InterfaceDelegate vtbl

/-- The names passed to the visitor, in order. -/
def names (calls : List VisitorCall) : List String := calls.map (·.name)

/-! ## Translation units -/

/-- A use of one of the two declaring definitions of the header. -/
inductive Declaration where
  /-- The use `BOOST_REFLECT_ANY_DERIVED( NAME, INHERITS, MEMBERS )`. -/
  | any_derived (NAME : Ident) (INHERITS MEMBERS : Seq)
  /-- The use `BOOST_REFLECT_ANY( NAME, MEMBERS )`. -/
  | any (NAME : Ident) (MEMBERS : Seq)
deriving DecidableEq, Repr

/-- What a declaration expands to. -/
def Declaration.expand : Declaration → Expansion
  | .any_derived NAME INHERITS MEMBERS => BOOST_REFLECT_ANY_DERIVED NAME INHERITS MEMBERS
  | .any NAME MEMBERS => BOOST_REFLECT_ANY NAME MEMBERS

/-- The interface a declaration declares. -/
def Declaration.NAME : Declaration → Ident
  | .any_derived NAME _ _ => NAME
  | .any NAME _ => NAME

/-- The base list a declaration is written with. -/
def Declaration.INHERITS : Declaration → Seq
  | .any_derived _ INHERITS _ => INHERITS
  | .any _ _ => BOOST_PP_SEQ_NIL

/-- The member list a declaration is written with. -/
def Declaration.MEMBERS : Declaration → Seq
  | .any_derived _ _ MEMBERS => MEMBERS
  | .any _ MEMBERS => MEMBERS

/-- The interfaces declared by a list of declarations. -/
def declared (scope : List Declaration) : List Ident := scope.map (·.NAME)

/-- The visitor invocations of `vtable_reflector<T>::visit(vtbl, visitor)` with
`vtbl` a `const vtable<T,InterfaceDelegate>*`, where `scope` holds the
declarations of the translation unit, the most recent first. -/
def visit (scope : List Declaration) (T InterfaceDelegate : Ident) (vtbl : Pointer) :
    List VisitorCall :=
  vtable_reflector_visit (scope.map Declaration.expand) T InterfaceDelegate vtbl

/-- Every interface is declared once, after all the interfaces of its base
list. -/
def WellFormed : List Declaration → Prop
  | [] => True
  | d :: earlier =>
    d.NAME ∉ declared earlier ∧ (∀ b ∈ d.INHERITS, b ∈ declared earlier) ∧ WellFormed earlier

/-- Well-formedness of a list of declarations can be computed. -/
instance WellFormed.decidable : (scope : List Declaration) → Decidable (WellFormed scope)
  | [] => isTrue trivial
  | d :: earlier =>
    have : Decidable (WellFormed earlier) := WellFormed.decidable earlier
    inferInstanceAs (Decidable (d.NAME ∉ declared earlier ∧
      (∀ b ∈ d.INHERITS, b ∈ declared earlier) ∧ WellFormed earlier))

/-- The number of base paths from `T` to `A`: the path of length zero when
`T` is `A`, and the paths that start with a step from `T` to an interface of
the base list of its declaration. -/
def base_paths : List Declaration → Ident → Ident → Nat
  | [], T, A => if T = A then 1 else 0
  | d :: earlier, T, A =>
    if d.NAME = T then
      (if T = A then 1 else 0) + (d.INHERITS.map fun b => base_paths earlier b A).sum
    else
      base_paths earlier T A

/-- The public bases of a generated `vtable` specialization, in order. -/
def public_bases (v : VtableSpecialization) : List CppType :=
  (v.bases.filter fun b => b.access = .pub).map (·.base)

/-- The private bases of a generated `vtable` specialization, in order. -/
def private_bases (v : VtableSpecialization) : List CppType :=
  (v.bases.filter fun b => b.access = .priv).map (·.base)

/-- The descriptor types the statements of a `visit` body cast `vtbl` to and
recurse into, in order. -/
def cast_targets (body : List Stmt) : List CppType :=
  body.filterMap fun s =>
    match s with
    | .visit_base name D _ => some (.vtable name D)
    | .visit_member _ _ _ _ => none

/-- The fields the statements of a `visit` body hand to the visitor, in order. -/
def visited_fields (body : List Stmt) : List Ident :=
  body.filterMap fun s =>
    match s with
    | .visit_base _ _ _ => none
    | .visit_member _ _ elem _ => some elem

/-- The invocations for the members a declaration lists itself. -/
def own_calls (d : Declaration) (InterfaceDelegate : Ident) : List VisitorCall :=
  d.MEMBERS.map fun elem => ⟨.vtable d.NAME InterfaceDelegate, elem, BOOST_PP_STRINGIZE elem⟩

/-! ## Example translation units -/

/-- The declarations `BOOST_REFLECT_ANY(B1,(a))`, `BOOST_REFLECT_ANY(B2,(b))`,
`BOOST_REFLECT_ANY_DERIVED(D,(B1)(B2),(c))`, the most recent first. -/
def two_bases : List Declaration :=
  [.any_derived ⟨"D"⟩ [⟨"B1"⟩, ⟨"B2"⟩] [⟨"c"⟩], .any ⟨"B2"⟩ [⟨"b"⟩], .any ⟨"B1"⟩ [⟨"a"⟩]]

/-- The declarations `BOOST_REFLECT_ANY(Shape,(area)(perimeter))` and
`BOOST_REFLECT_ANY_DERIVED(Circle,(Shape),(radius))`, the most recent first. -/
def shapes : List Declaration :=
  [.any_derived ⟨"Circle"⟩ [⟨"Shape"⟩] [⟨"radius"⟩],
   .any ⟨"Shape"⟩ [⟨"area"⟩, ⟨"perimeter"⟩]]

/-- A diamond: `A` with member `x`, `B1` and `B2` each with base list `(A)`, and
`D` with base list `(B1)(B2)`, the most recent first. -/
def diamond : List Declaration :=
  [.any_derived ⟨"D"⟩ [⟨"B1"⟩, ⟨"B2"⟩] [⟨"d"⟩],
   .any_derived ⟨"B2"⟩ [⟨"A"⟩] [⟨"b2"⟩],
   .any_derived ⟨"B1"⟩ [⟨"A"⟩] [⟨"b1"⟩],
   .any ⟨"A"⟩ [⟨"x"⟩]]

/-- A pointer to a descriptor instance of `T` with delegate `D`. -/
def descriptor (T D : Ident) : Pointer := ⟨0, .vtable T D⟩

/-! ## Lemmas -/

theorem expand_eq (d : Declaration) :
    d.expand = BOOST_REFLECT_ANY_DERIVED d.NAME d.INHERITS d.MEMBERS := by
  cases d <;> rfl

theorem visit_nil (T D : Ident) (p : Pointer) : visit [] T D p = [] := rfl

theorem visit_cons (d : Declaration) (earlier : List Declaration) (T D : Ident) (p : Pointer) :
    visit (d :: earlier) T D p =
      if d.NAME = T then
        (d.INHERITS.flatMap fun b => visit earlier b D (p.cast b D)) ++ own_calls d D
      else visit earlier T D p := by
  simp only [visit, List.map_cons, vtable_reflector_visit, expand_eq, own_calls]
  simp only [BOOST_REFLECT_ANY_DERIVED, BOOST_PP_SEQ_FOR_EACH, List.flatMap_append,
    List.flatMap_map, BOOST_REFLECT_VTABLE_VISIT_BASE, BOOST_REFLECT_VTABLE_VISIT_MEMBER]
  split
  · congr 1
    induction d.MEMBERS with
    | nil => rfl
    | cons m ms ih => simp [List.flatMap_cons, ih]
  · rfl

theorem visit_append_of_not_declared (later rest : List Declaration) (T D : Ident) (p : Pointer)
    (h : T ∉ declared later) : visit (later ++ rest) T D p = visit rest T D p := by
  induction later with
  | nil => rfl
  | cons d ds ih =>
    simp only [declared, List.map_cons, List.mem_cons, not_or] at h
    rw [List.cons_append, visit_cons, if_neg (fun e => h.1 e.symm)]
    exact ih h.2

theorem visit_of_not_declared (scope : List Declaration) (T D : Ident) (p : Pointer)
    (h : T ∉ declared scope) : visit scope T D p = [] := by
  have := visit_append_of_not_declared scope [] T D p h
  simpa using this

theorem visit_pointer (scope : List Declaration) (T D : Ident) (p q : Pointer) :
    visit scope T D p = visit scope T D q := by
  induction scope generalizing T p q with
  | nil => rfl
  | cons d ds ih =>
    rw [visit_cons, visit_cons]
    split
    · congr 1
      exact List.flatMap_congr fun b _ => ih b _ _
    · exact ih T p q

theorem names_append (xs ys : List VisitorCall) : names (xs ++ ys) = names xs ++ names ys := by
  simp [names]

theorem names_flatMap (bs : List Ident) (f : Ident → List VisitorCall) :
    names (bs.flatMap f) = bs.flatMap fun b => names (f b) := by
  simp [names, List.map_flatMap]

theorem names_own_calls (d : Declaration) (D : Ident) :
    names (own_calls d D) = d.MEMBERS.map BOOST_PP_STRINGIZE := by
  simp [names, own_calls, Function.comp_def]

/-- The traversal of the interface of a declaration in scope: the traversals of
its bases as they were in scope at the declaration, then its own members. -/
theorem visit_declared (later earlier : List Declaration) (d : Declaration) (D : Ident)
    (p : Pointer) (h : d.NAME ∉ declared later) :
    visit (later ++ d :: earlier) d.NAME D p =
      (d.INHERITS.flatMap fun b => visit earlier b D (p.cast b D)) ++ own_calls d D := by
  rw [visit_append_of_not_declared _ _ _ _ _ h, visit_cons, if_pos rfl]

/-- An interface declared before `d` has, with `d` and later declarations in
scope, the traversal it had before. -/
theorem visit_earlier (later earlier : List Declaration) (d : Declaration) (b D : Ident)
    (p : Pointer) (hnodup : (declared (later ++ d :: earlier)).Nodup)
    (hb : b ∈ declared earlier) :
    visit (later ++ d :: earlier) b D p = visit earlier b D p := by
  simp only [declared, List.map_append, List.map_cons] at hnodup
  rw [List.nodup_append] at hnodup
  obtain ⟨_, hcons, hdisj⟩ := hnodup
  have hb1 : b ∉ declared later := fun hmem =>
    hdisj hmem (List.mem_cons_of_mem _ hb)
  have hb2 : d.NAME ≠ b := fun e => by
    subst e
    exact (List.nodup_cons.1 hcons).1 hb
  rw [visit_append_of_not_declared _ _ _ _ _ hb1, visit_cons, if_neg hb2]

theorem not_declared_later (later earlier : List Declaration) (d : Declaration)
    (hnodup : (declared (later ++ d :: earlier)).Nodup) : d.NAME ∉ declared later := by
  simp only [declared, List.map_append, List.map_cons] at hnodup
  rw [List.nodup_append] at hnodup
  exact fun hmem => hnodup.2.2 hmem (List.mem_cons_self _ _)

/-- Every invocation is for a member slot of a declaration in scope, and
passes the stringized member. -/
theorem mem_visit (scope : List Declaration) (T D : Ident) (p : Pointer) (c : VisitorCall)
    (h : c ∈ visit scope T D p) :
    ∃ d ∈ scope, c.vtable_type = .vtable d.NAME D ∧ c.elem ∈ d.MEMBERS ∧
      c.name = BOOST_PP_STRINGIZE c.elem := by
  induction scope generalizing T p with
  | nil => simp [visit_nil] at h
  | cons d ds ih =>
    rw [visit_cons] at h
    split at h
    · rcases List.mem_append.1 h with h1 | h1
      · obtain ⟨b, _, hb⟩ := List.mem_flatMap.1 h1
        obtain ⟨e, he, h3⟩ := ih _ _ hb
        exact ⟨e, List.mem_cons_of_mem _ he, h3⟩
      · simp only [own_calls, List.mem_map] at h1
        obtain ⟨elem, helem, rfl⟩ := h1
        exact ⟨d, List.mem_cons_self _ _, rfl, helem, rfl⟩
    · obtain ⟨e, he, h3⟩ := ih _ _ h
      exact ⟨e, List.mem_cons_of_mem _ he, h3⟩

/-- The member slots and names visited do not depend on the delegate. -/
theorem visit_delegate (scope : List Declaration) (T D1 D2 : Ident) (p q : Pointer) :
    (visit scope T D1 p).map (fun c => (c.elem, c.name)) =
      (visit scope T D2 q).map (fun c => (c.elem, c.name)) := by
  induction scope generalizing T p q with
  | nil => rfl
  | cons d ds ih =>
    rw [visit_cons, visit_cons]
    split
    · simp only [List.map_append, List.map_flatMap, own_calls, List.map_map, Function.comp_def]
      congr 1
      exact List.flatMap_congr fun b _ => ih b _ _
    · exact ih T p q

theorem own_calls_nodup (d : Declaration) (D : Ident) (h : d.MEMBERS.Nodup) :
    (own_calls d D).Nodup := by
  refine List.Nodup.map (fun x y hxy => ?_) h
  exact congrArg VisitorCall.elem hxy

theorem sum_map_eq_zero {α : Type} (l : List α) (f : α → Nat) (h : ∀ x ∈ l, f x = 0) :
    (l.map f).sum = 0 := by
  induction l with
  | nil => rfl
  | cons x xs ih =>
    simp only [List.map_cons, List.sum_cons]
    rw [h x (List.mem_cons_self _ _), ih fun y hy => h y (List.mem_cons_of_mem _ hy)]

theorem le_sum_map {α : Type} (l : List α) (f : α → Nat) (x : α) (h : x ∈ l) :
    f x ≤ (l.map f).sum := by
  induction l with
  | nil => cases h
  | cons y ys ih =>
    simp only [List.map_cons, List.sum_cons]
    rcases List.mem_cons.1 h with rfl | h1
    · exact Nat.le_add_right _ _
    · exact Nat.le_trans (ih h1) (Nat.le_add_left _ _)

theorem count_flatMap_eq {α β : Type} [DecidableEq β] (l : List α) (f : α → List β) (c : β) :
    (l.flatMap f).count c = (l.map fun x => (f x).count c).sum := by
  induction l with
  | nil => rfl
  | cons x xs ih => simp [List.flatMap_cons, ih]

theorem mem_declared (scope : List Declaration) (d : Declaration) (h : d ∈ scope) :
    d.NAME ∈ declared scope :=
  List.mem_map.2 ⟨d, h, rfl⟩

theorem base_declared (scope : List Declaration) (d : Declaration) (b : Ident)
    (hwf : WellFormed scope) (hd : d ∈ scope) (hb : b ∈ d.INHERITS) : b ∈ declared scope := by
  induction scope with
  | nil => cases hd
  | cons e es ih =>
    obtain ⟨_, hbases, hwf1⟩ := hwf
    rcases List.mem_cons.1 hd with rfl | h1
    · exact List.mem_cons_of_mem _ (hbases b hb)
    · exact List.mem_cons_of_mem _ (ih hwf1 h1)

/-- There is no base path to an interface that is not declared. -/
theorem base_paths_eq_zero (scope : List Declaration) (T A : Ident) (hwf : WellFormed scope)
    (hA : A ∉ declared scope) (hne : T ≠ A) : base_paths scope T A = 0 := by
  induction scope generalizing T with
  | nil => simp [base_paths, hne]
  | cons e es ih =>
    obtain ⟨_, hbases, hwf1⟩ := hwf
    have hA1 : A ∉ declared es := fun h => hA (List.mem_cons_of_mem _ h)
    by_cases hT : e.NAME = T
    · simp only [base_paths, if_pos hT, if_neg hne, Nat.zero_add]
      refine sum_map_eq_zero _ _ fun b hb => ih b hwf1 hA1 ?_
      intro hbA
      exact hA1 (hbA ▸ hbases b hb)
    · simp only [base_paths, if_neg hT]
      exact ih T hwf1 hA1 hne

/-- There is no base path from a base of a declaration back to its interface. -/
theorem base_paths_base_eq_zero (scope : List Declaration) (d : Declaration) (B : Ident)
    (hwf : WellFormed scope) (hd : d ∈ scope) (hB : B ∈ d.INHERITS) :
    base_paths scope B d.NAME = 0 := by
  induction scope with
  | nil => cases hd
  | cons e es ih =>
    obtain ⟨hnew, hbases, hwf1⟩ := hwf
    rcases List.mem_cons.1 hd with rfl | h1
    · have hBd : B ∈ declared es := hbases B hB
      have hne : d.NAME ≠ B := fun h => hnew (h ▸ hBd)
      simp only [base_paths, if_neg hne]
      exact base_paths_eq_zero es B d.NAME hwf1 hnew (Ne.symm hne)
    · have hBd : B ∈ declared es := base_declared es d B hwf1 h1 hB
      have hne : e.NAME ≠ B := fun h => hnew (h ▸ hBd)
      simp only [base_paths, if_neg hne]
      exact ih hwf1 h1

/-- No slot of an undeclared interface is visited. -/
theorem count_visit_of_not_declared (scope : List Declaration) (T A D elem : Ident)
    (arg : String) (p : Pointer) (hA : A ∉ declared scope) :
    (visit scope T D p).count ⟨.vtable A D, elem, arg⟩ = 0 := by
  rw [List.count_eq_zero]
  intro hmem
  obtain ⟨d, hd, hty, _, _⟩ := mem_visit scope T D p _ hmem
  simp only [CppType.vtable.injEq, and_true] at hty
  exact hA (hty ▸ mem_declared scope d hd)

/-- The number of times a member slot of a declared interface is visited is the
number of base paths to that interface. -/
theorem count_visit (scope : List Declaration) (dA : Declaration) (m T D : Ident)
    (p : Pointer) (hwf : WellFormed scope) (hA : dA ∈ scope) (hm : m ∈ dA.MEMBERS)
    (hnd : dA.MEMBERS.Nodup) :
    (visit scope T D p).count ⟨.vtable dA.NAME D, m, BOOST_PP_STRINGIZE m⟩ =
      base_paths scope T dA.NAME := by
  induction scope generalizing T p with
  | nil => cases hA
  | cons e es ih =>
    obtain ⟨hnew, hbases, hwf1⟩ := hwf
    rw [visit_cons]
    simp only [base_paths]
    rcases List.mem_cons.1 hA with rfl | h1
    · -- the declaration of the interface itself
      split
      · next hT =>
        subst hT
        rw [List.count_append, count_flatMap_eq, if_pos rfl,
          sum_map_eq_zero _ _ fun b _ => count_visit_of_not_declared es b _ D m _ _ hnew,
          sum_map_eq_zero _ _ fun b hb => base_paths_eq_zero es b dA.NAME hwf1 hnew
            (fun h => hnew (h ▸ hbases b hb))]
        rw [List.count_eq_one_of_mem (own_calls_nodup dA D hnd)
          (List.mem_map.2 ⟨m, hm, rfl⟩)]
      · next hT =>
        rw [count_visit_of_not_declared es T _ D m _ _ hnew,
          base_paths_eq_zero es T dA.NAME hwf1 hnew (Ne.symm hT)]
    · -- the interface is declared before `e`
      have hne : e.NAME ≠ dA.NAME := fun h => hnew (h ▸ mem_declared es dA h1)
      split
      · next hT =>
        subst hT
        rw [List.count_append, count_flatMap_eq, if_neg hne, Nat.zero_add]
        have hown : (own_calls e D).count ⟨.vtable dA.NAME D, m, BOOST_PP_STRINGIZE m⟩ = 0 := by
          rw [List.count_eq_zero]
          intro hmem
          obtain ⟨x, _, hx⟩ := List.mem_map.1 hmem
          simp only [VisitorCall.mk.injEq, CppType.vtable.injEq, and_true] at hx
          exact hne hx.1
        rw [hown, Nat.add_zero]
        congr 1
        exact List.map_congr_left fun b _ => ih b _ hwf1 h1
      · exact ih T p hwf1 h1

/-- Every slot visited belongs to an interface reached by a base path. -/
theorem mem_visit_base_paths (scope : List Declaration) (T D : Ident) (p : Pointer)
    (c : VisitorCall) (h : c ∈ visit scope T D p) :
    ∃ A, c.vtable_type = .vtable A D ∧ 0 < base_paths scope T A := by
  induction scope generalizing T p with
  | nil => simp [visit_nil] at h
  | cons d ds ih =>
    rw [visit_cons] at h
    simp only [base_paths]
    split at h
    · next hT =>
      simp only [if_pos hT]
      rcases List.mem_append.1 h with h1 | h1
      · obtain ⟨b, hb, hc⟩ := List.mem_flatMap.1 h1
        obtain ⟨A, hA, hpos⟩ := ih _ _ hc
        refine ⟨A, hA, ?_⟩
        have hle : base_paths ds b A ≤ (d.INHERITS.map fun b => base_paths ds b A).sum :=
          le_sum_map d.INHERITS (fun b => base_paths ds b A) b hb
        omega
      · obtain ⟨elem, _, rfl⟩ := List.mem_map.1 h1
        exact ⟨T, by rw [hT], by simp⟩
    · next hT =>
      simp only [if_neg hT]
      exact ih _ _ h

theorem base_paths_self (scope : List Declaration) (d : Declaration) (hwf : WellFormed scope)
    (hd : d ∈ scope) : base_paths scope d.NAME d.NAME = 1 := by
  induction scope with
  | nil => cases hd
  | cons e es ih =>
    obtain ⟨hnew, hbases, hwf1⟩ := hwf
    rcases List.mem_cons.1 hd with rfl | h1
    · simp only [base_paths, if_pos rfl]
      rw [sum_map_eq_zero _ _ fun b hb => base_paths_eq_zero es b d.NAME hwf1 hnew
        (fun h => hnew (h ▸ hbases b hb))]
      simp
    · have hne : e.NAME ≠ d.NAME := fun h => hnew (h ▸ mem_declared es d h1)
      simp only [base_paths, if_neg hne]
      exact ih hwf1 h1

theorem public_bases_expansion (NAME : Ident) (INHERITS MEMBERS : Seq) (D : Ident) :
    public_bases ((BOOST_REFLECT_ANY_DERIVED NAME INHERITS MEMBERS).vtable D) =
      INHERITS.map (fun b => .vtable b D) := by
  simp only [public_bases, BOOST_REFLECT_ANY_DERIVED, BOOST_PP_SEQ_FOR_EACH]
  induction INHERITS with
  | nil => rfl
  | cons b bs ih =>
    simp only [List.map_cons, List.cons_append, BOOST_REFLECT_VTABLE_PUBLIC_BASE,
      List.filter_cons, decide_True, if_true]
    exact congrArg _ ih

theorem private_bases_expansion (NAME : Ident) (INHERITS MEMBERS : Seq) (D : Ident) :
    private_bases ((BOOST_REFLECT_ANY_DERIVED NAME INHERITS MEMBERS).vtable D) =
      [.vtable_base NAME] := by
  simp only [private_bases, BOOST_REFLECT_ANY_DERIVED, BOOST_PP_SEQ_FOR_EACH]
  induction INHERITS with
  | nil => rfl
  | cons b bs ih =>
    simp only [List.map_cons, List.cons_append, BOOST_REFLECT_VTABLE_PUBLIC_BASE,
      List.filter_cons]
    exact ih

theorem cast_targets_expansion (NAME : Ident) (INHERITS MEMBERS : Seq) (D : Ident) :
    cast_targets ((BOOST_REFLECT_ANY_DERIVED NAME INHERITS MEMBERS).vtable_reflector.visit D) =
      INHERITS.map (fun b => .vtable b D) := by
  simp only [cast_targets, BOOST_REFLECT_ANY_DERIVED, BOOST_PP_SEQ_FOR_EACH,
    BOOST_REFLECT_VTABLE_VISIT_BASE, BOOST_REFLECT_VTABLE_VISIT_MEMBER,
    List.filterMap_append, List.filterMap_map, Function.comp_def]
  have h1 : ∀ l : Seq, l.filterMap (fun x => some (CppType.vtable x D)) =
      l.map (fun b => .vtable b D) := fun l => by
    induction l with
    | nil => rfl
    | cons x xs ih => simp [List.filterMap_cons, ih]
  have h2 : ∀ l : Seq, l.filterMap (fun _ => (none : Option CppType)) = [] := fun l => by
    induction l with
    | nil => rfl
    | cons x xs ih => simp [List.filterMap_cons, ih]
  rw [h1, h2, List.append_nil]

theorem visited_fields_expansion (NAME : Ident) (INHERITS MEMBERS : Seq) (D : Ident) :
    visited_fields ((BOOST_REFLECT_ANY_DERIVED NAME INHERITS MEMBERS).vtable_reflector.visit D) =
      MEMBERS := by
  simp only [visited_fields, BOOST_REFLECT_ANY_DERIVED, BOOST_PP_SEQ_FOR_EACH,
    BOOST_REFLECT_VTABLE_VISIT_BASE, BOOST_REFLECT_VTABLE_VISIT_MEMBER,
    List.filterMap_append, List.filterMap_map, Function.comp_def]
  have h1 : ∀ l : Seq, l.filterMap (fun x => some x) = l := fun l => by
    induction l with
    | nil => rfl
    | cons x xs ih => simp [List.filterMap_cons, ih]
  have h2 : ∀ l : Seq, l.filterMap (fun _ => (none : Option Ident)) = [] := fun l => by
    induction l with
    | nil => rfl
    | cons x xs ih => simp [List.filterMap_cons, ih]
  rw [h1, h2, List.nil_append]

theorem shapes_wellFormed : WellFormed shapes := by decide

theorem diamond_wellFormed : WellFormed diamond := by decide

/-! ## The claims -/

/-- C1: with every interface declared once and the bases of a declaration
declared before it, the names visited for the declared interface are the
names of the full traversal of each base, bases in declared order, followed by
the stringized members in declared order.  In particular, for `D` with base
list `(B1)(B2)`, `B1` declaring `(a)`, `B2` declaring `(b)` and `D` declaring
`(c)`, the names are `a`, `b`, `c`. -/
theorem visit_order_bases_then_members :
    (∀ (later earlier : List Declaration) (d : Declaration) (D : Ident) (p : Pointer)
        (q : Ident → Pointer),
      (declared (later ++ d :: earlier)).Nodup →
      (∀ b ∈ d.INHERITS, b ∈ declared earlier) →
      names (visit (later ++ d :: earlier) d.NAME D p) =
        (d.INHERITS.flatMap fun b => names (visit (later ++ d :: earlier) b D (q b)))
          ++ d.MEMBERS.map BOOST_PP_STRINGIZE) ∧
    (∀ (B1 B2 Dn a b c D : Ident) (p : Pointer), B1 ≠ B2 →
      names (visit [.any_derived Dn [B1, B2] [c], .any B2 [b], .any B1 [a]] Dn D p) =
        [BOOST_PP_STRINGIZE a, BOOST_PP_STRINGIZE b, BOOST_PP_STRINGIZE c]) := by
  constructor
  · intro later earlier d D p q hnodup hbases
    rw [visit_declared _ _ _ _ _ (not_declared_later _ _ _ hnodup), names_append,
      names_flatMap, names_own_calls]
    congr 1
    refine List.flatMap_congr fun b hb => ?_
    rw [visit_earlier _ _ _ _ _ _ hnodup (hbases b hb)]
    exact congrArg names (visit_pointer _ _ _ _ _)
  · intro B1 B2 Dn a b c D p hne
    simp [visit_cons, visit_nil, own_calls, names, Declaration.NAME, Declaration.INHERITS,
      Declaration.MEMBERS, BOOST_PP_SEQ_NIL, hne, hne.symm]

/-- C1 at `two_bases`: the names visited for `D` are `a`, `b`, `c`. -/
theorem visit_order_bases_then_members_witness :
    (declared ([] ++ Declaration.any_derived ⟨"D"⟩ [⟨"B1"⟩, ⟨"B2"⟩] [⟨"c"⟩]
        :: [.any ⟨"B2"⟩ [⟨"b"⟩], .any ⟨"B1"⟩ [⟨"a"⟩]])).Nodup ∧
    names (visit two_bases ⟨"D"⟩ ⟨"Delegate"⟩ (descriptor ⟨"D"⟩ ⟨"Delegate"⟩)) =
      ["a", "b", "c"] :=
  ⟨by decide,
   (visit_order_bases_then_members.1 [] [.any ⟨"B2"⟩ [⟨"b"⟩], .any ⟨"B1"⟩ [⟨"a"⟩]]
      (.any_derived ⟨"D"⟩ [⟨"B1"⟩, ⟨"B2"⟩] [⟨"c"⟩]) ⟨"Delegate"⟩
      (descriptor ⟨"D"⟩ ⟨"Delegate"⟩) (fun b => descriptor b ⟨"Delegate"⟩)
      (by decide) (by decide)).trans (by decide)⟩

/-- C2: for a root interface declared once with `BOOST_REFLECT_ANY(NAME, MEMBERS)`,
the members pairwise distinct, the visitor is invoked once for each member, in
declared order, and for nothing else. -/
theorem visit_root_interface (later earlier : List Declaration) (NAME : Ident) (MEMBERS : Seq)
    (D : Ident) (p : Pointer)
    (honce : (declared (later ++ Declaration.any NAME MEMBERS :: earlier)).Nodup)
    (hdistinct : MEMBERS.Nodup) :
    visit (later ++ .any NAME MEMBERS :: earlier) NAME D p =
        MEMBERS.map (fun m => ⟨.vtable NAME D, m, BOOST_PP_STRINGIZE m⟩) ∧
      (visit (later ++ .any NAME MEMBERS :: earlier) NAME D p).length = MEMBERS.length ∧
      names (visit (later ++ .any NAME MEMBERS :: earlier) NAME D p) =
        MEMBERS.map BOOST_PP_STRINGIZE ∧
      (∀ m ∈ MEMBERS, (visit (later ++ .any NAME MEMBERS :: earlier) NAME D p).count
        ⟨.vtable NAME D, m, BOOST_PP_STRINGIZE m⟩ = 1) ∧
      (∀ c ∈ visit (later ++ .any NAME MEMBERS :: earlier) NAME D p, c.elem ∈ MEMBERS) := by
  have hv : visit (later ++ .any NAME MEMBERS :: earlier) NAME D p =
      own_calls (.any NAME MEMBERS) D := by
    have := visit_declared later earlier (.any NAME MEMBERS) D p
      (not_declared_later _ _ _ honce)
    simpa [Declaration.INHERITS, BOOST_PP_SEQ_NIL, Declaration.NAME] using this
  rw [hv]
  refine ⟨rfl, by simp [own_calls, Declaration.MEMBERS], ?_, ?_, ?_⟩
  · simpa [Declaration.MEMBERS] using names_own_calls (.any NAME MEMBERS) D
  · intro m hm
    refine List.count_eq_one_of_mem (own_calls_nodup _ D hdistinct) ?_
    exact List.mem_map.2 ⟨m, hm, rfl⟩
  · intro c hc
    obtain ⟨m, hm, rfl⟩ := List.mem_map.1 hc
    exact hm

/-- C2 at `BOOST_REFLECT_ANY(Shape,(area)(perimeter))` with `Circle` declared
after it. -/
theorem visit_root_interface_witness :
    visit shapes ⟨"Shape"⟩ ⟨"Delegate"⟩ (descriptor ⟨"Shape"⟩ ⟨"Delegate"⟩) =
        [⟨.vtable ⟨"Shape"⟩ ⟨"Delegate"⟩, ⟨"area"⟩, "area"⟩,
         ⟨.vtable ⟨"Shape"⟩ ⟨"Delegate"⟩, ⟨"perimeter"⟩, "perimeter"⟩] ∧
      names (visit shapes ⟨"Shape"⟩ ⟨"Delegate"⟩ (descriptor ⟨"Shape"⟩ ⟨"Delegate"⟩)) =
        ["area", "perimeter"] :=
  have h := visit_root_interface [.any_derived ⟨"Circle"⟩ [⟨"Shape"⟩] [⟨"radius"⟩]] []
    ⟨"Shape"⟩ [⟨"area"⟩, ⟨"perimeter"⟩] ⟨"Delegate"⟩ (descriptor ⟨"Shape"⟩ ⟨"Delegate"⟩)
    (by decide) (by decide)
  ⟨h.1, h.2.2.1⟩

/-- C3: the string passed to the visitor for a member is the identifier of the
member list, character for character: every invocation passes the spelling of
the member whose slot it points to, and every member of a declared interface
is visited so, whatever else is in scope. -/
theorem visit_name_is_identifier :
    (∀ (scope : List Declaration) (T D : Ident) (p : Pointer),
      ∀ c ∈ visit scope T D p, c.name = c.elem.spelling ∧
        c.name.data = c.elem.spelling.data) ∧
    (∀ (later earlier : List Declaration) (d : Declaration) (D : Ident) (p : Pointer),
      d.NAME ∉ declared later → ∀ elem ∈ d.MEMBERS,
        (⟨.vtable d.NAME D, elem, elem.spelling⟩ : VisitorCall) ∈
          visit (later ++ d :: earlier) d.NAME D p) := by
  refine ⟨?_, ?_⟩
  · intro scope T D p c hc
    obtain ⟨_, _, _, _, h⟩ := mem_visit scope T D p c hc
    exact ⟨h, congrArg String.data h⟩
  · intro later earlier d D p h elem helem
    rw [visit_declared _ _ _ _ _ h]
    exact List.mem_append_right _ (List.mem_map.2 ⟨elem, helem, rfl⟩)

/-- C3 at `shapes`: `radius` of `Circle` is reported as "radius". -/
theorem visit_name_is_identifier_witness :
    (⟨.vtable ⟨"Circle"⟩ ⟨"Delegate"⟩, ⟨"radius"⟩, "radius"⟩ : VisitorCall) ∈
      visit shapes ⟨"Circle"⟩ ⟨"Delegate"⟩ (descriptor ⟨"Circle"⟩ ⟨"Delegate"⟩) :=
  visit_name_is_identifier.2 [] [.any ⟨"Shape"⟩ [⟨"area"⟩, ⟨"perimeter"⟩]]
    (.any_derived ⟨"Circle"⟩ [⟨"Shape"⟩] [⟨"radius"⟩]) ⟨"Delegate"⟩
    (descriptor ⟨"Circle"⟩ ⟨"Delegate"⟩) (by decide) ⟨"radius"⟩ (by decide)

/-- C4 at `BOOST_REFLECT_ANY(Shape,(area)(perimeter))`: `name()` of both
`__reflect__area` and `__reflect__perimeter` returns "Shape", the stringized
`data` argument, while the traversal reports "area" and "perimeter". -/
theorem name_accessor_at_shape :
    (((BOOST_REFLECT_ANY ⟨"Shape"⟩ [⟨"area"⟩, ⟨"perimeter"⟩]).vtable ⟨"Delegate"⟩).members.map
        fun m => (m.struct_name, m.name)) =
      [(⟨"__reflect__area"⟩, "Shape"), (⟨"__reflect__perimeter"⟩, "Shape")] ∧
    names (visit [.any ⟨"Shape"⟩ [⟨"area"⟩, ⟨"perimeter"⟩]] ⟨"Shape"⟩ ⟨"Delegate"⟩
      (descriptor ⟨"Shape"⟩ ⟨"Delegate"⟩)) = ["area", "perimeter"] := by
  constructor <;> decide

/-- C5, as the code has it: for an interface with no declaration in scope the
primary template of `vtable_reflector` is used, whose `visit` has an empty
body; the traversal is accepted and invokes the visitor zero times. -/
theorem visit_undeclared (scope : List Declaration) (T D : Ident) (p : Pointer)
    (h : T ∉ declared scope) : visit scope T D p = [] :=
  visit_of_not_declared scope T D p h

/-- C5 at `shapes` and the undeclared `Square`. -/
theorem visit_undeclared_witness :
    (⟨"Square"⟩ : Ident) ∉ declared shapes ∧
      visit shapes ⟨"Square"⟩ ⟨"Delegate"⟩ (descriptor ⟨"Square"⟩ ⟨"Delegate"⟩) = [] :=
  ⟨by decide, visit_undeclared shapes ⟨"Square"⟩ ⟨"Delegate"⟩ _ (by decide)⟩

/-- C5 fails: with no declaration at all in scope, the traversal of `Square`
is not rejected, it returns after zero visitor invocations. -/
theorem undeclared_traversal_accepted :
    ¬ (∀ (scope : List Declaration) (T D : Ident) (p : Pointer),
        T ∉ declared scope → visit scope T D p ≠ []) := by
  intro h
  exact h [] ⟨"Square"⟩ ⟨"Delegate"⟩ (descriptor ⟨"Square"⟩ ⟨"Delegate"⟩) (by decide) rfl

/-- C6, as the code has it: `get_member_ptr` assigns `&Type::elem` to its
parameter `v`, which is declared `AssignType v`.  With the built-in assignment,
when `AssignType` is a reference type the caller's target holds `&Type::elem`
after the call and no other object has changed; when `AssignType` is an object
type the assignment goes to the copy that is the parameter, and the objects of
the caller are after the call what they were before. -/
theorem get_member_ptr_assigns_parameter (InterfaceDelegate interface_type data elem : Ident)
    (type : Ident) (A : AssignType) (mem : Memory) (target : Nat)
    (hassign : A.assign = builtin_assign) (htarget : target < mem.length) :
    (A.is_reference = true →
      ((BOOST_REFLECT_VTABLE_DEFINE_MEMBER InterfaceDelegate interface_type data elem).get_member_ptr
          type A mem target).getD target .unset = .member_pointer type elem ∧
      ∀ a, a ≠ target →
        ((BOOST_REFLECT_VTABLE_DEFINE_MEMBER InterfaceDelegate interface_type data elem).get_member_ptr
          type A mem target).getD a .unset = mem.getD a .unset) ∧
    (A.is_reference = false →
      (BOOST_REFLECT_VTABLE_DEFINE_MEMBER InterfaceDelegate interface_type data elem).get_member_ptr
        type A mem target = mem) := by
  constructor
  · intro href
    simp only [MemberStruct.get_member_ptr, href, if_true, hassign, builtin_assign,
      BOOST_REFLECT_VTABLE_DEFINE_MEMBER]
    constructor
    · simp [List.getD_eq_getElem?_getD, htarget]
    · intro a ha
      simp [List.getD_eq_getElem?_getD, List.getElem?_set, Ne.symm ha]
  · intro href
    simp only [MemberStruct.get_member_ptr, href, hassign, builtin_assign,
      BOOST_REFLECT_VTABLE_DEFINE_MEMBER]
    simp

/-- C6 for the reference type: the target, unset before, holds `&Square::area`
after `get_member_ptr<Square, T&>(target)`. -/
theorem get_member_ptr_assigns_parameter_witness :
    ((BOOST_REFLECT_VTABLE_DEFINE_MEMBER ⟨"Delegate"⟩ ⟨"Shape"⟩ ⟨"Shape"⟩
        ⟨"area"⟩).get_member_ptr ⟨"Square"⟩ ⟨true, builtin_assign⟩ [.unset] 0).getD 0 .unset =
      .member_pointer ⟨"Square"⟩ ⟨"area"⟩ :=
  ((get_member_ptr_assigns_parameter ⟨"Delegate"⟩ ⟨"Shape"⟩ ⟨"Shape"⟩ ⟨"area"⟩ ⟨"Square"⟩
    ⟨true, builtin_assign⟩ [.unset] 0 rfl (by decide)).1 rfl).1

/-- C6 fails for an object type: after `get_member_ptr<Square, T>(target)` with
`T` a pointer-to-member type, the target of the caller is still unset; it does
not hold `&Square::area`. -/
theorem get_member_ptr_by_value_keeps_target :
    ((BOOST_REFLECT_VTABLE_DEFINE_MEMBER ⟨"Delegate"⟩ ⟨"Shape"⟩ ⟨"Shape"⟩
        ⟨"area"⟩).get_member_ptr ⟨"Square"⟩ ⟨false, builtin_assign⟩ [.unset] 0).getD 0 .unset =
      .unset ∧
    ((BOOST_REFLECT_VTABLE_DEFINE_MEMBER ⟨"Delegate"⟩ ⟨"Shape"⟩ ⟨"Shape"⟩
        ⟨"area"⟩).get_member_ptr ⟨"Square"⟩ ⟨false, builtin_assign⟩ [.unset] 0).getD 0 .unset ≠
      .member_pointer ⟨"Square"⟩ ⟨"area"⟩ := by
  constructor <;> decide

/-- C7: with every interface declared once after its bases, for a declared
interface and a base `B` of its base list, `vtable_reflector<B>::visit` on the
pointer to the descriptor of the interface cast to `vtable<B,Delegate>*`
performs the visitor invocations of the traversal of a descriptor of `B`
itself; among them there is none for a member slot of the derived interface,
and none for a member slot of another base that is neither `B` nor reached
from `B` by a base path. -/
theorem visit_widened_descriptor (scope : List Declaration) (d : Declaration) (B D : Ident)
    (pD pB : Pointer) (hwf : WellFormed scope) (hd : d ∈ scope) (hB : B ∈ d.INHERITS) :
    visit scope B D (pD.cast B D) = visit scope B D pB ∧
      names (visit scope B D (pD.cast B D)) = names (visit scope B D pB) ∧
      (∀ c ∈ visit scope B D (pD.cast B D), c.vtable_type ≠ .vtable d.NAME D) ∧
      (∀ B2 ∈ d.INHERITS, base_paths scope B B2 = 0 →
        ∀ c ∈ visit scope B D (pD.cast B D), c.vtable_type ≠ .vtable B2 D) := by
  have hzero : ∀ X, base_paths scope B X = 0 →
      ∀ c ∈ visit scope B D (pD.cast B D), c.vtable_type ≠ .vtable X D := by
    intro X hX c hc hty
    obtain ⟨A, hA, hpos⟩ := mem_visit_base_paths scope B D _ c hc
    rw [hty] at hA
    simp only [CppType.vtable.injEq, and_true] at hA
    subst hA
    omega
  refine ⟨visit_pointer _ _ _ _ _, congrArg names (visit_pointer _ _ _ _ _), ?_, ?_⟩
  · exact hzero d.NAME (base_paths_base_eq_zero scope d B hwf hd hB)
  · exact fun B2 _ h => hzero B2 h

/-- C7 at `shapes`: the descriptor of `Circle` viewed as a descriptor of `Shape`
is traversed as a descriptor of `Shape`: `area`, `perimeter`, and not `radius`. -/
theorem visit_widened_descriptor_witness :
    visit shapes ⟨"Shape"⟩ ⟨"Delegate"⟩
        ((descriptor ⟨"Circle"⟩ ⟨"Delegate"⟩).cast ⟨"Shape"⟩ ⟨"Delegate"⟩) =
      visit shapes ⟨"Shape"⟩ ⟨"Delegate"⟩ (descriptor ⟨"Shape"⟩ ⟨"Delegate"⟩) ∧
    names (visit shapes ⟨"Shape"⟩ ⟨"Delegate"⟩ (descriptor ⟨"Shape"⟩ ⟨"Delegate"⟩)) =
      ["area", "perimeter"] :=
  ⟨(visit_widened_descriptor shapes (.any_derived ⟨"Circle"⟩ [⟨"Shape"⟩] [⟨"radius"⟩])
      ⟨"Shape"⟩ ⟨"Delegate"⟩ (descriptor ⟨"Circle"⟩ ⟨"Delegate"⟩)
      (descriptor ⟨"Shape"⟩ ⟨"Delegate"⟩) shapes_wellFormed (by decide) (by decide)).1,
   by decide⟩

/-- C8: for every `BOOST_REFLECT_ANY_DERIVED(NAME, INHERITS, MEMBERS)` and every
delegate, the base list of `vtable<NAME,Delegate>` is `vtable<b,Delegate>` for
`b` in `INHERITS`, public and in declared order, followed by the private
`vtable_base<NAME>`; its fields are `MEMBERS` in declared order; the body of
`visit` is one recursion per base, casting to those public bases in that
order, followed by one visitor invocation per field in that order; and the
traversal recurses and visits accordingly. -/
theorem descriptor_and_traversal_in_lock_step (NAME : Ident) (INHERITS MEMBERS : Seq)
    (D : Ident) :
    ((BOOST_REFLECT_ANY_DERIVED NAME INHERITS MEMBERS).vtable D).bases =
        INHERITS.map (fun b => ⟨.pub, .vtable b D⟩) ++ [⟨.priv, .vtable_base NAME⟩] ∧
      public_bases ((BOOST_REFLECT_ANY_DERIVED NAME INHERITS MEMBERS).vtable D) =
        INHERITS.map (fun b => .vtable b D) ∧
      private_bases ((BOOST_REFLECT_ANY_DERIVED NAME INHERITS MEMBERS).vtable D) =
        [.vtable_base NAME] ∧
      ((BOOST_REFLECT_ANY_DERIVED NAME INHERITS MEMBERS).vtable D).members.map (·.field) =
        MEMBERS ∧
      (BOOST_REFLECT_ANY_DERIVED NAME INHERITS MEMBERS).vtable_reflector.visit D =
        INHERITS.map (fun b => Stmt.visit_base b D ⟨"visitor"⟩) ++
          MEMBERS.map (fun m =>
            Stmt.visit_member ⟨"visitor"⟩ (.vtable NAME D) m (BOOST_PP_STRINGIZE m)) ∧
      cast_targets ((BOOST_REFLECT_ANY_DERIVED NAME INHERITS MEMBERS).vtable_reflector.visit D) =
        public_bases ((BOOST_REFLECT_ANY_DERIVED NAME INHERITS MEMBERS).vtable D) ∧
      visited_fields ((BOOST_REFLECT_ANY_DERIVED NAME INHERITS MEMBERS).vtable_reflector.visit D) =
        ((BOOST_REFLECT_ANY_DERIVED NAME INHERITS MEMBERS).vtable D).members.map (·.field) ∧
      (∀ (earlier : List Declaration) (p : Pointer),
        visit (.any_derived NAME INHERITS MEMBERS :: earlier) NAME D p =
          (INHERITS.flatMap fun b => visit earlier b D (p.cast b D)) ++
            MEMBERS.map (fun m => ⟨.vtable NAME D, m, BOOST_PP_STRINGIZE m⟩)) := by
  have hpub : public_bases ((BOOST_REFLECT_ANY_DERIVED NAME INHERITS MEMBERS).vtable D) =
      INHERITS.map (fun b => .vtable b D) := public_bases_expansion NAME INHERITS MEMBERS D
  have hfields :
      ((BOOST_REFLECT_ANY_DERIVED NAME INHERITS MEMBERS).vtable D).members.map (·.field) =
        MEMBERS := by
    simp [BOOST_REFLECT_ANY_DERIVED, BOOST_PP_SEQ_FOR_EACH, BOOST_REFLECT_VTABLE_DEFINE_MEMBER,
      Function.comp_def]
  refine ⟨rfl, hpub, ?_, hfields, rfl, ?_, ?_, ?_⟩
  · exact private_bases_expansion NAME INHERITS MEMBERS D
  · rw [hpub]
    exact cast_targets_expansion NAME INHERITS MEMBERS D
  · rw [hfields]
    exact visited_fields_expansion NAME INHERITS MEMBERS D
  · intro earlier p
    rw [visit_cons]
    simp [Declaration.NAME, Declaration.INHERITS, Declaration.MEMBERS, own_calls]

/-- C9: for every scope and interface, traversing with delegate `D1` and with
delegate `D2` visits the same members under the same names in the same order;
the two traversals differ at most in the delegate of the slot types. -/
theorem visit_delegate_independent (scope : List Declaration) (T D1 D2 : Ident)
    (p q : Pointer) :
    names (visit scope T D1 p) = names (visit scope T D2 q) ∧
      (visit scope T D1 p).map (·.elem) = (visit scope T D2 q).map (·.elem) ∧
      (visit scope T D1 p).length = (visit scope T D2 q).length := by
  have h := visit_delegate scope T D1 D2 p q
  refine ⟨?_, ?_, ?_⟩
  · have := congrArg (List.map Prod.snd) h
    simpa [names, Function.comp_def] using this
  · have := congrArg (List.map Prod.fst) h
    simpa [Function.comp_def] using this
  · simpa using congrArg List.length h

/-- C10: with every interface declared once after its bases, the number of
visitor invocations for a member slot of a declared interface `A` during the
traversal of `T` is the number of base paths from `T` to `A`, which is 1 for
`A` itself.  In a diamond where `D` has base list `(B1)(B2)` and `B1` and `B2`
each have base list `(A)`, every member of `A` is visited twice. -/
theorem visit_counts_base_paths :
    (∀ (scope : List Declaration) (dA : Declaration) (m T D : Ident) (p : Pointer),
      WellFormed scope → dA ∈ scope → m ∈ dA.MEMBERS → dA.MEMBERS.Nodup →
      (visit scope T D p).count ⟨.vtable dA.NAME D, m, BOOST_PP_STRINGIZE m⟩ =
        base_paths scope T dA.NAME) ∧
    (∀ (scope : List Declaration) (dA : Declaration),
      WellFormed scope → dA ∈ scope → base_paths scope dA.NAME dA.NAME = 1) ∧
    (∀ (A B1 B2 Dn : Ident) (MA M1 M2 MD : Seq) (m D : Ident) (p : Pointer),
      A ≠ B1 → A ≠ B2 → A ≠ Dn → B1 ≠ B2 → B1 ≠ Dn → B2 ≠ Dn → m ∈ MA → MA.Nodup →
      (visit [.any_derived Dn [B1, B2] MD, .any_derived B2 [A] M2, .any_derived B1 [A] M1,
          .any A MA] Dn D p).count ⟨.vtable A D, m, BOOST_PP_STRINGIZE m⟩ = 2) := by
  refine ⟨fun scope dA m T D p hwf hA hm hnd => count_visit scope dA m T D p hwf hA hm hnd,
    fun scope dA hwf hA => base_paths_self scope dA hwf hA, ?_⟩
  intro A B1 B2 Dn MA M1 M2 MD m D p h1 h2 h3 h4 h5 h6 hm hnd
  have hwf : WellFormed [.any_derived Dn [B1, B2] MD, .any_derived B2 [A] M2,
      .any_derived B1 [A] M1, .any A MA] := by
    simp [WellFormed, declared, Declaration.NAME, Declaration.INHERITS, BOOST_PP_SEQ_NIL,
      h1, h2, h3, h4, h5, h6, Ne.symm h1, Ne.symm h2, Ne.symm h3, Ne.symm h4, Ne.symm h5,
      Ne.symm h6]
  have h := count_visit _ (.any A MA) m Dn D p hwf (by simp) hm hnd
  rw [show (Declaration.any A MA).NAME = A from rfl] at h
  rw [h]
  simp [base_paths, Declaration.NAME, Declaration.INHERITS, BOOST_PP_SEQ_NIL,
    h1, h2, h3, h4, h5, h6, Ne.symm h1, Ne.symm h2, Ne.symm h3, Ne.symm h4, Ne.symm h5,
    Ne.symm h6]

/-- C10 at `diamond`: the member `x` of `A` is visited twice in the traversal
of `D`, once for each of the two base paths from `D` to `A`. -/
theorem visit_counts_base_paths_witness :
    base_paths diamond ⟨"D"⟩ ⟨"A"⟩ = 2 ∧
    (visit diamond ⟨"D"⟩ ⟨"Delegate"⟩ (descriptor ⟨"D"⟩ ⟨"Delegate"⟩)).count
      ⟨.vtable ⟨"A"⟩ ⟨"Delegate"⟩, ⟨"x"⟩, "x"⟩ = 2 ∧
    names (visit diamond ⟨"D"⟩ ⟨"Delegate"⟩ (descriptor ⟨"D"⟩ ⟨"Delegate"⟩)) =
      ["x", "b1", "x", "b2", "d"] :=
  ⟨by decide,
   (visit_counts_base_paths.1 diamond (.any ⟨"A"⟩ [⟨"x"⟩]) ⟨"x"⟩ ⟨"D"⟩ ⟨"Delegate"⟩
      (descriptor ⟨"D"⟩ ⟨"Delegate"⟩) diamond_wellFormed (by decide) (by decide)
      (by decide)).trans (by decide),
   by decide⟩

end BoostReflect
